import Mathlib

/-!
Shallow embedding of the BOM-upload and dashboard logic of the
revonn-golden-assistant repository (`src/pages/BOMUpload.tsx` and the
dashboard page), together with theorems settling the frozen claims about
the natural-language specification.

JavaScript strings are modelled as Lean `String` / `List Char`; JS numbers
appearing as integers are `Int`/`Nat`, prices are exact rationals `ℚ`.
-/

set_option autoImplicit false

namespace Revonn

/-! ## Character and string helpers mirroring JavaScript semantics -/

/-- JS whitespace class `\s` restricted to the ASCII characters that can occur
in the inputs handled here (space, tab, line feed, vertical tab, form feed,
carriage return). -/
def jsIsSpace (c : Char) : Bool :=
  c == ' ' || c == '\t' || c == '\n' || c == '\r' ||
  c == Char.ofNat 11 || c == Char.ofNat 12

/-- JS digit class `\d` (ASCII 0-9). -/
def isDigitCh (c : Char) : Bool :=
  48 ≤ c.toNat && c.toNat ≤ 57

/-- JS word-character class `\w` = `[A-Za-z0-9_]`, used for `\b` boundaries. -/
def isWordCh (c : Char) : Bool :=
  (65 ≤ c.toNat && c.toNat ≤ 90) || (97 ≤ c.toNat && c.toNat ≤ 122) ||
  isDigitCh c || c == '_'

/-- ASCII lower-casing of one character (JS `toLowerCase` on ASCII input). -/
def lowerCh (c : Char) : Char :=
  if 65 ≤ c.toNat && c.toNat ≤ 90 then Char.ofNat (c.toNat + 32) else c

/-- ASCII upper-casing of one character (JS `toUpperCase` on ASCII input). -/
def upperCh (c : Char) : Char :=
  if 97 ≤ c.toNat && c.toNat ≤ 122 then Char.ofNat (c.toNat - 32) else c

/-- JS `String.prototype.toLowerCase` on ASCII strings. -/
def jsToLower (s : String) : String :=
  ⟨s.data.map lowerCh⟩

def lowerL (l : List Char) : List Char := l.map lowerCh

def upperL (l : List Char) : List Char := l.map upperCh

/-- JS `String.prototype.trim`: drop whitespace from both ends. -/
def trimL (l : List Char) : List Char :=
  ((l.dropWhile jsIsSpace).reverse.dropWhile jsIsSpace).reverse

/-- JS `String.prototype.split` with a single-character separator predicate:
separators delimit fields, empty fields are kept, and the empty string splits
to `[[]]`.  The result is always nonempty. -/
def splitKeep (p : Char → Bool) : List Char → List (List Char)
  | [] => [[]]
  | c :: cs =>
    match splitKeep p cs, p c with
    | r, true => [] :: r
    | t :: ts, false => (c :: t) :: ts
    | [], false => [[c]]

/-- JS `hay.includes(needle)`: contiguous-substring test. -/
def jsIncludes (hay needle : List Char) : Bool :=
  (List.range (hay.length + 1)).any fun i => needle.isPrefixOf (hay.drop i)

/-! ## calculateSimilarity (BOMUpload.tsx lines 190-207)

```
const calculateSimilarity = (str1, str2) => {
  const longer = str1.length > str2.length ? str1 : str2;
  const shorter = str1.length > str2.length ? str2 : str1;
  if (longer.length === 0) return 1.0;
  let matches = 0;
  const shorterWords = shorter.split(' ');
  const longerWords = longer.split(' ');
  for (const word of shorterWords) {
    if (longerWords.some(w => w.includes(word) || word.includes(w))) matches++;
  }
  return matches / Math.max(shorterWords.length, longerWords.length);
};
```
-/

/-- The word lists produced by JS `str.split(' ')` (single-space separator,
empty fields kept). -/
def spaceWords (s : String) : List (List Char) :=
  splitKeep (fun c => c == ' ') s.data

/-- Shared scoring core: count of words of `sw` that are in substring relation
with some word of `lw`, divided by the larger word count.  The quotient of
the two counts is written `mkRat` (see `simScore_eq_div`) so that concrete
scores evaluate inside the kernel. -/
def simScore (sw lw : List (List Char)) : ℚ :=
  mkRat
    ((sw.filter fun word => lw.any fun w =>
      jsIncludes w word || jsIncludes word w).length : Int)
    (max sw.length lw.length)

/-- `calculateSimilarity` from the source, with the score as an exact
rational. -/
def calculateSimilarity (str1 str2 : String) : ℚ :=
  let longer := if str1.length > str2.length then str1 else str2
  let shorter := if str1.length > str2.length then str2 else str1
  if longer.length = 0 then 1
  else simScore (spaceWords shorter) (spaceWords longer)

/-- The word lists described by the spec (§4.3): split on whitespace; words
are maximal nonempty runs of non-whitespace characters. -/
def wsWords (s : String) : List (List Char) :=
  (splitKeep jsIsSpace s.data).filter (fun w => !w.isEmpty)

/-- Reference similarity following the wording of the spec (§4.3): split both
names on whitespace, count words of the shorter name in substring relation
with some word of the longer name, divide by the maximum word count.  The
longer/shorter tie-break matches the source (on equal lengths the second
string is the longer one). -/
def specSimilarity (str1 str2 : String) : ℚ :=
  let longer := if str1.length > str2.length then str1 else str2
  let shorter := if str1.length > str2.length then str2 else str1
  simScore (wsWords shorter) (wsWords longer)

/-! ## Data model -/

/-- Per-row action in the review step. -/
inductive BOMAction where
  | create
  | update
  | ignore
  deriving DecidableEq, Repr

/-- A parsed upload row (`BOMRow` in `types`). -/
structure BOMRow where
  name : String
  quantity : Int
  unitCost : ℚ
  sku : String
  size : String
  color : String
  vendor : String
  hsn : String
  action : BOMAction
  matchedItemId : Option String
  deriving DecidableEq, Repr

/-- One size/color stock-keeping unit of an inventory item. -/
structure ItemVariant where
  id : String
  size : String
  color : String
  stock : Int
  deriving DecidableEq, Repr

/-- A persistent catalog item.  Timestamps are abstract `Nat` instants. -/
structure InventoryItem where
  id : String
  name : String
  sku : String
  category : String
  hsn : String
  variants : List ItemVariant
  vendor : String
  purchasePrice : ℚ
  sellingPrice : ℚ
  taxRate : ℚ
  lowStockThreshold : Nat
  createdAt : Nat
  updatedAt : Nat
  deriving DecidableEq, Repr

/-! ## matchWithExistingInventory (BOMUpload.tsx lines 155-187) -/

/-- The per-candidate predicate of the `find` call inside
`matchWithExistingInventory`: exact case-insensitive name equality, or
word-overlap similarity above 0.7, or (both SKUs nonempty and) exact
case-insensitive SKU equality.  Empty strings are falsy in JS, hence the
nonemptiness guards on the SKU rule. -/
def matchPred (item : BOMRow) (existing : InventoryItem) : Bool :=
  let nameLower := jsToLower item.name
  let existingLower := jsToLower existing.name
  nameLower == existingLower ||
  decide (calculateSimilarity nameLower existingLower > mkRat 7 10) ||
  (!(item.sku == "") && !(existing.sku == "") &&
    jsToLower item.sku == jsToLower existing.sku)

/-- The body of the `items.map` inside `matchWithExistingInventory`. -/
def matchOne (existingItems : List InventoryItem) (item : BOMRow) : BOMRow :=
  match existingItems.find? (matchPred item) with
  | some m => { item with matchedItemId := some m.id, action := BOMAction.update }
  | none => item

/-- `matchWithExistingInventory`, with the catalog read `db.inventory.getAll()`
passed explicitly. -/
def matchWithExistingInventory (existingItems : List InventoryItem)
    (items : List BOMRow) : List BOMRow :=
  items.map (matchOne existingItems)

/-! ## The commit step: handleConfirm (BOMUpload.tsx lines 326-400)

The data store is a key-indexed list of items; `db.inventory.get` is lookup
by id, `db.inventory.update` replaces the stored item with the same id, and
`db.inventory.add` appends.  `uuidv4()` draws are modelled by an explicit
supply `u : Nat → String` consumed left to right through a counter, and
`new Date()` by an abstract instant `now`. -/

/-- `db.inventory.get`: first catalog item with the given id. -/
def dbGet (catalog : List InventoryItem) (i : String) : Option InventoryItem :=
  catalog.find? fun it => it.id == i

/-- `db.inventory.update`: replace the stored item(s) with the argument's id. -/
def dbUpdate (catalog : List InventoryItem) (item : InventoryItem) :
    List InventoryItem :=
  catalog.map fun x => if x.id == item.id then item else x

/-- JS `Array.prototype.findIndex` (as an `Option`al index). -/
def jsFindIndex {α : Type} (p : α → Bool) : List α → Option Nat
  | [] => none
  | a :: as => if p a then some 0 else (jsFindIndex p as).map (· + 1)

/-- `updatedVariants[variantIndex].stock += row.quantity`: bump the stock of
the variant at index `k` (the index always comes from a successful
`findIndex`, so the out-of-range case is unreachable). -/
def bumpStock (q : Int) : List ItemVariant → Nat → List ItemVariant
  | [], _ => []
  | v :: vs, 0 => { v with stock := v.stock + q } :: vs
  | v :: vs, k + 1 => v :: bumpStock q vs k

/-- JS `Math.round`: round half-up towards positive infinity. -/
def jsRound (q : ℚ) : ℤ := ⌊q + 1 / 2⌋

/-- Mutable state threaded through the commit loop: the catalog plus the
`created`/`updated` counters and the uuid-supply cursor. -/
structure CommitState where
  catalog : List InventoryItem
  created : Nat
  updated : Nat
  ctr : Nat
  deriving DecidableEq, Repr

/-- The `// Create new item` else-branch of the commit loop.  The literal
`1.4` is the selling-price markup; `row.sku ||` falls through to a derived
SKU when the row's SKU is empty (falsy). -/
def commitCreate (u : Nat → String) (now : Nat) (st : CommitState)
    (row : BOMRow) : CommitState :=
  let variant : ItemVariant :=
    { id := u st.ctr, size := row.size, color := row.color, stock := row.quantity }
  let newId := u (st.ctr + 1)
  let skuCtr : String × Nat :=
    if row.sku == "" then
      (upperL (row.name.data.take 3) ++ '-' :: (u (st.ctr + 2)).data.take 6 |> List.asString,
       st.ctr + 3)
    else (row.sku, st.ctr + 2)
  let newItem : InventoryItem :=
    { id := newId
      name := row.name
      sku := skuCtr.1
      category := "General"
      hsn := row.hsn
      variants := [variant]
      vendor := row.vendor
      purchasePrice := row.unitCost
      sellingPrice := if row.unitCost > 0 then ((jsRound (row.unitCost * (7 / 5)) : ℤ) : ℚ) else 0
      taxRate := 12
      lowStockThreshold := 5
      createdAt := now
      updatedAt := now }
  { st with catalog := st.catalog ++ [newItem], created := st.created + 1,
            ctr := skuCtr.2 }

/-- One iteration of the `for (const row of itemsToProcess)` loop.  The JS
guard is `row.action === 'update' && row.matchedItemId`; an absent id or the
(falsy) empty-string id sends the row to the create branch. -/
def commitRow (u : Nat → String) (now : Nat) (st : CommitState)
    (row : BOMRow) : CommitState :=
  match row.matchedItemId with
  | some mid =>
    if row.action == BOMAction.update && !(mid == "") then
      match dbGet st.catalog mid with
      | some existing =>
        match jsFindIndex
            (fun v => v.size == row.size && v.color == row.color)
            existing.variants with
        | some k =>
          let updatedVariants := bumpStock row.quantity existing.variants k
          { st with
            catalog := dbUpdate st.catalog
              { existing with variants := updatedVariants, updatedAt := now },
            updated := st.updated + 1 }
        | none =>
          let updatedVariants := existing.variants ++
            [{ id := u st.ctr, size := row.size, color := row.color,
               stock := row.quantity }]
          { st with
            catalog := dbUpdate st.catalog
              { existing with variants := updatedVariants, updatedAt := now },
            updated := st.updated + 1,
            ctr := st.ctr + 1 }
      | none => st
    else commitCreate u now st row
  | none => commitCreate u now st row

/-- `handleConfirm`: filter out ignored rows, then run the sequential commit
loop starting from the given catalog with both counters at zero. -/
def handleConfirm (u : Nat → String) (now : Nat) (rows : List BOMRow)
    (catalog : List InventoryItem) : CommitState :=
  (rows.filter fun row => !(row.action == BOMAction.ignore)).foldl
    (commitRow u now) { catalog := catalog, created := 0, updated := 0, ctr := 0 }

/-- `updateRowAction` (lines 314-318): set the action of the row at `index`,
leaving every other field (in particular `matchedItemId`) untouched. -/
def updateRowAction (rows : List BOMRow) (index : Nat) (action : BOMAction) :
    List BOMRow :=
  match rows, index with
  | [], _ => []
  | r :: rs, 0 => { r with action := action } :: rs
  | r :: rs, i + 1 => r :: updateRowAction rs i action

/-! ## Dashboard top-selling aggregation (Dashboard page, loadDashboardData)

```
const todayInvoices = invoices.filter(inv => new Date(inv.createdAt) >= today);
const itemSales: Record<string, number> = {};
todayInvoices.forEach(inv => { inv.items.forEach(item => {
  itemSales[item.itemName] = (itemSales[item.itemName] || 0) + item.quantity; }); });
const sorted = Object.entries(itemSales)
  .map(([name, sold]) => ({ name, sold }))
  .sort((a, b) => b.sold - a.sold)
  .slice(0, 5);
```

A JS plain object keyed by strings stores a new key at the end, but
`Object.entries` enumerates array-index-like keys (canonical digit strings
below 2^32 - 1) first, in ascending numeric order, before the remaining
string keys in insertion order.  `Array.prototype.sort` is stable with the
consistent comparator `b.sold - a.sold`, so it is modelled by a stable
insertion sort for the induced descending preorder. -/

/-- One invoice line as used by the aggregation. -/
structure SaleLine where
  itemName : String
  quantity : Int
  deriving DecidableEq, Repr

/-- An invoice, restricted to the fields the aggregation reads. -/
structure Invoice where
  createdAt : Int
  items : List SaleLine
  deriving DecidableEq, Repr

/-- `record[k] = v`: update the value at an existing key in place, else append
the new key at the end. -/
def recordSet (k : String) (v : Int) : List (String × Int) → List (String × Int)
  | [] => [(k, v)]
  | kv :: rest => if kv.1 == k then (kv.1, v) :: rest else kv :: recordSet k v rest

/-- Value at a key of the record, with JS `|| 0` defaulting. -/
def recordGet (r : List (String × Int)) (k : String) : Int :=
  match r.find? fun kv => kv.1 == k with
  | some kv => kv.2
  | none => 0

/-- `itemSales[name] = (itemSales[name] || 0) + q`. -/
def addSale (r : List (String × Int)) (name : String) (q : Int) :
    List (String × Int) :=
  recordSet name (recordGet r name + q) r

/-- The two nested `forEach` loops accumulating per-name quantity totals. -/
def itemSalesOf (invoices : List Invoice) : List (String × Int) :=
  invoices.foldl
    (fun r inv => inv.items.foldl (fun r item => addSale r item.itemName item.quantity) r)
    []

/-- Digit-string value (most significant first). -/
def digitsToNat (l : List Char) : Nat :=
  l.foldl (fun n c => n * 10 + (c.toNat - 48)) 0

/-- JS array-index keys: canonical decimal strings (no leading zero except
`0` itself) whose value is below `2^32 - 1`.  These are the object keys that
`Object.entries` moves to the front in ascending numeric order. -/
def jsArrayIndex (s : String) : Option Nat :=
  if s.data ≠ [] ∧ s.data.all isDigitCh ∧ (s.data = ['0'] ∨ s.data.head? ≠ some '0')
  then
    let n := digitsToNat s.data
    if n < 4294967295 then some n else none
  else none

/-- Stable insertion used to model ES `Array.prototype.sort`: walk past every
element that may stay in front of `x` (in particular past ties), so
later-inserted elements land after equal earlier ones. -/
def stableInsert {α : Type} (le : α → α → Bool) (x : α) : List α → List α
  | [] => [x]
  | b :: bs => if le b x then b :: stableInsert le x bs else x :: b :: bs

/-- Stable sort for a total preorder `le` (`le a b` = `a` may precede `b`).
For the consistent comparator of the source this is the unique stable sorted
permutation, hence equal to the ES `sort` result. -/
def jsStableSort {α : Type} (le : α → α → Bool) (l : List α) : List α :=
  l.foldl (fun acc x => stableInsert le x acc) []

/-- `Object.entries` on the accumulation record: array-index-like keys first
in ascending numeric order, then the remaining keys in insertion order. -/
def jsEntries (r : List (String × Int)) : List (String × Int) :=
  jsStableSort
    (fun a b => (jsArrayIndex a.1).getD 0 ≤ (jsArrayIndex b.1).getD 0)
    (r.filter fun kv => (jsArrayIndex kv.1).isSome) ++
  r.filter fun kv => (jsArrayIndex kv.1).isNone

/-- The top-selling computation of `loadDashboardData`: filter to invoices
created at or after local midnight, total quantities per item name, sort
descending by total (stable), keep the first five. -/
def topSellingToday (midnight : Int) (invoices : List Invoice) :
    List (String × Int) :=
  let todayInvoices := invoices.filter fun inv => midnight ≤ inv.createdAt
  (jsStableSort (fun a b => b.2 ≤ a.2) (jsEntries (itemSalesOf todayInvoices))).take 5

/-- Reference computation following the claim's words: the (name, total)
pairs in original encounter order, sorted by total descending with ties kept
in encounter order (stable), truncated to the first five. -/
def topSellingSpec (midnight : Int) (invoices : List Invoice) :
    List (String × Int) :=
  let todayInvoices := invoices.filter fun inv => midnight ≤ inv.createdAt
  (jsStableSort (fun a b => b.2 ≤ a.2) (itemSalesOf todayInvoices)).take 5

/-! ## intelligentItemParser (BOMUpload.tsx lines 28-152)

Each regular expression of the source is modelled by a hand-written matcher
with JS semantics: the leftmost starting position wins, alternatives are
tried in source order, and greedy quantifiers are safe here because in every
pattern the token following a greedy class can never extend a shortened
match (digits are never units/whitespace, separators are never digits, and
so on), so no backtracking case is lost. -/

/-- Case-insensitive literal prefix test (patterns carry the `i` flag). -/
def ciStarts : List Char → List Char → Bool
  | [], _ => true
  | _ :: _, [] => false
  | c :: cs, d :: ds => lowerCh c == lowerCh d && ciStarts cs ds

/-- Word-character test on an optional character; `none` (string edge) is a
non-word position, giving the `\b` boundary rule. -/
def isWordO : Option Char → Bool
  | some c => isWordCh c
  | none => false

/-- Scan for the leftmost position where `tryAt` matches, threading the
previous character for `\b` checks; returns (start, length, group). -/
def scanFirst (tryAt : Option Char → List Char → Option (Nat × List Char)) :
    Option Char → Nat → List Char → Option (Nat × Nat × List Char)
  | prev, i, s =>
    match tryAt prev s with
    | some (len, grp) => some (i, len, grp)
    | none =>
      match s with
      | [] => none
      | c :: rest => scanFirst tryAt (some c) (i + 1) rest

/-- `str.match(re)` for an unanchored pattern: the leftmost match as
(matched text, first capture group). -/
def findPat (tryAt : Option Char → List Char → Option (Nat × List Char))
    (s : List Char) : Option (List Char × List Char) :=
  match scanFirst tryAt none 0 s with
  | some (i, len, grp) => some ((s.drop i).take len, grp)
  | none => none

/-- First alternative that matches, in source order. -/
def firstAlt : List (List Char → Option Nat) → List Char → Option Nat
  | [], _ => none
  | f :: fs, s =>
    match f s with
    | some n => some n
    | none => firstAlt fs s

/-- A case-insensitive literal alternative. -/
def litCI (w : List Char) (s : List Char) : Option Nat :=
  if ciStarts w s then some w.length else none

/-- A literal with a greedy optional trailing `s?` (`pcs?`, `pieces?`, ...). -/
def litOptS (w : List Char) (s : List Char) : Option Nat :=
  if ciStarts w s then
    match (s.drop w.length).head? with
    | some c => if lowerCh c == 's' then some (w.length + 1) else some w.length
    | none => some w.length
  else none

/-- The number token `(\d+(?:,\d+)?(?:\.\d+)?)` of the price patterns:
greedy digits, one optional comma group, one optional fraction group.
Returns (consumed length, captured text). -/
def numTok (s : List Char) : Option (Nat × List Char) :=
  let ds := s.takeWhile isDigitCh
  if ds.isEmpty then none
  else
    let r1 := s.drop ds.length
    let commaPart : List Char :=
      match r1 with
      | ',' :: t =>
        let ds2 := t.takeWhile isDigitCh
        if ds2.isEmpty then [] else ',' :: ds2
      | _ => []
    let r2 := r1.drop commaPart.length
    let dotPart : List Char :=
      match r2 with
      | '.' :: t =>
        let ds3 := t.takeWhile isDigitCh
        if ds3.isEmpty then [] else '.' :: ds3
      | _ => []
    let tok := ds ++ commaPart ++ dotPart
    some (tok.length, tok)

/-- Quantity pattern 1: `(\d+)\s*(pcs?|pieces?|nos?|units?|qty)` (i). -/
def qtyUnitAt (_ : Option Char) (s : List Char) : Option (Nat × List Char) :=
  let ds := s.takeWhile isDigitCh
  if ds.isEmpty then none
  else
    let r1 := s.drop ds.length
    let sp := r1.takeWhile jsIsSpace
    match firstAlt
        [litOptS "pc".data, litOptS "piece".data, litOptS "no".data,
         litOptS "unit".data, litCI "qty".data] (r1.drop sp.length) with
    | some n => some (ds.length + sp.length + n, ds)
    | none => none

/-- Quantity pattern 2: `qty[:\s]*(\d+)` (i). -/
def qtyLabelAt (_ : Option Char) (s : List Char) : Option (Nat × List Char) :=
  if ciStarts "qty".data s then
    let r1 := s.drop 3
    let sep := r1.takeWhile fun c => c == ':' || jsIsSpace c
    let ds := (r1.drop sep.length).takeWhile isDigitCh
    if ds.isEmpty then none else some (3 + sep.length + ds.length, ds)
  else none

/-- Quantity pattern 3: `^(\d+)\s+` (anchored at the start of the line). -/
def qtyLeading (s : List Char) : Option (List Char × List Char) :=
  let ds := s.takeWhile isDigitCh
  if ds.isEmpty then none
  else
    let sp := (s.drop ds.length).takeWhile jsIsSpace
    if sp.isEmpty then none else some (ds ++ sp, ds)

/-- Quantity pattern 4: `x\s*(\d+)` (i). -/
def qtyTimesAt (_ : Option Char) (s : List Char) : Option (Nat × List Char) :=
  match s with
  | c :: r1 =>
    if lowerCh c == 'x' then
      let sp := r1.takeWhile jsIsSpace
      let ds := (r1.drop sp.length).takeWhile isDigitCh
      if ds.isEmpty then none else some (1 + sp.length + ds.length, ds)
    else none
  | [] => none

/-- Quantity pattern 5: `(\d+)\s*$` (digits, optional spaces, end). -/
def qtyTrailingAt (_ : Option Char) (s : List Char) : Option (Nat × List Char) :=
  let ds := s.takeWhile isDigitCh
  if ds.isEmpty then none
  else if (s.drop ds.length).all jsIsSpace then some (s.length, ds) else none

/-- The ordered quantity pattern list `qtyPatterns`. -/
def qtyPatterns : List (List Char → Option (List Char × List Char)) :=
  [findPat qtyUnitAt, findPat qtyLabelAt, qtyLeading, findPat qtyTimesAt,
   findPat qtyTrailingAt]

/-- The currency alternation `(?:rs\.?|₹|inr)` (i), greedy on the dot. -/
def currencyTok (s : List Char) : Option Nat :=
  if ciStarts "rs".data s then
    match (s.drop 2).head? with
    | some '.' => some 3
    | _ => some 2
  else if ciStarts "₹".data s then some 1
  else if ciStarts "inr".data s then some 3
  else none

/-- Price pattern 1: `(?:rs\.?|₹|inr)\s*(num)` (i). -/
def priceCurrencyAt (_ : Option Char) (s : List Char) : Option (Nat × List Char) :=
  match currencyTok s with
  | some n =>
    let r1 := s.drop n
    let sp := r1.takeWhile jsIsSpace
    match numTok (r1.drop sp.length) with
    | some (m, grp) => some (n + sp.length + m, grp)
    | none => none
  | none => none

/-- Price pattern 2: `@\s*(num)`. -/
def priceAtSignAt (_ : Option Char) (s : List Char) : Option (Nat × List Char) :=
  match s with
  | '@' :: r1 =>
    let sp := r1.takeWhile jsIsSpace
    match numTok (r1.drop sp.length) with
    | some (m, grp) => some (1 + sp.length + m, grp)
    | none => none
  | _ => none

/-- Price pattern 3: `(num)\s*(?:rs\.?|₹|inr|each|per)` (i). -/
def priceSuffixAt (_ : Option Char) (s : List Char) : Option (Nat × List Char) :=
  match numTok s with
  | some (m, grp) =>
    let r1 := s.drop m
    let sp := r1.takeWhile jsIsSpace
    match firstAlt [currencyTok, litCI "each".data, litCI "per".data]
        (r1.drop sp.length) with
    | some n => some (m + sp.length + n, grp)
    | none => none
  | none => none

/-- Price patterns 4-6: `price[:\s]*(num)`, `rate[:\s]*(num)`,
`cost[:\s]*(num)` (i). -/
def priceLabelAt (label : List Char) (_ : Option Char) (s : List Char) :
    Option (Nat × List Char) :=
  if ciStarts label s then
    let r1 := s.drop label.length
    let sep := r1.takeWhile fun c => c == ':' || jsIsSpace c
    match numTok (r1.drop sep.length) with
    | some (m, grp) => some (label.length + sep.length + m, grp)
    | none => none
  else none

/-- The ordered price pattern list `pricePatterns`. -/
def pricePatterns : List (List Char → Option (List Char × List Char)) :=
  [findPat priceCurrencyAt, findPat priceAtSignAt, findPat priceSuffixAt,
   findPat (priceLabelAt "price".data), findPat (priceLabelAt "rate".data),
   findPat (priceLabelAt "cost".data)]

/-- First alternative of a `\b(w1|w2|...)\b` alternation that matches here
together with its trailing `\b`. -/
def wordAltHere : List (List Char) → List Char → Option Nat
  | [], _ => none
  | a :: rest, s =>
    if ciStarts a s && !isWordO (s.drop a.length).head? then some a.length
    else wordAltHere rest s

/-- A `\b(w1|w2|...)\b` pattern over word-leading alternatives: the leading
boundary forces the previous character to be a non-word one. -/
def wordAltPat (alts : List (List Char)) (prev : Option Char) (s : List Char) :
    Option (Nat × List Char) :=
  if isWordO prev then none
  else
    match wordAltHere alts s with
    | some n => some (n, s.take n)
    | none => none

/-- Size pattern 2 and color patterns 2-3: `label[:\s]*([\w]+)` (i). -/
def labelWordPat (label : List Char) (_ : Option Char) (s : List Char) :
    Option (Nat × List Char) :=
  if ciStarts label s then
    let r1 := s.drop label.length
    let sep := r1.takeWhile fun c => c == ':' || jsIsSpace c
    let w := (r1.drop sep.length).takeWhile isWordCh
    if w.isEmpty then none else some (label.length + sep.length + w.length, w)
  else none

/-- Size pattern 3: `\b(\d{2})\b` (numeric sizes such as 32, 34). -/
def twoDigitPat (prev : Option Char) (s : List Char) : Option (Nat × List Char) :=
  if isWordO prev then none
  else
    match s with
    | d1 :: d2 :: rest =>
      if isDigitCh d1 && isDigitCh d2 && !isWordO rest.head? then
        some (2, [d1, d2])
      else none
    | _ => none

/-- The ordered size pattern list `sizePatterns`. -/
def sizePatterns : List (List Char → Option (List Char × List Char)) :=
  [findPat (wordAltPat (["xxs", "xs", "s", "m", "l", "xl", "xxl", "xxxl",
      "2xl", "3xl", "4xl"].map String.data)),
   findPat (labelWordPat "size".data),
   findPat twoDigitPat]

/-- The ordered color pattern list `colorPatterns`. -/
def colorPatterns : List (List Char → Option (List Char × List Char)) :=
  [findPat (wordAltPat (["red", "blue", "green", "yellow", "black", "white",
      "pink", "purple", "orange", "brown", "grey", "gray", "navy", "maroon",
      "beige", "cream", "gold", "silver"].map String.data)),
   findPat (labelWordPat "color".data),
   findPat (labelWordPat "colour".data)]

/-- The `for (const pattern of ...)` loops: first pattern of the ordered list
that matches anywhere in the line. -/
def firstPatternMatch (pats : List (List Char → Option (List Char × List Char)))
    (s : List Char) : Option (List Char × List Char) :=
  match pats with
  | [] => none
  | p :: ps =>
    match p s with
    | some res => some res
    | none => firstPatternMatch ps s

/-- Header-line test `^(item|name|product|description|sr\.?no|s\.?no|#)` (i). -/
def startsHeaderish (s : List Char) : Bool :=
  ciStarts "item".data s || ciStarts "name".data s ||
  ciStarts "product".data s || ciStarts "description".data s ||
  ciStarts "srno".data s || ciStarts "sr.no".data s ||
  ciStarts "sno".data s || ciStarts "s.no".data s ||
  ciStarts "#".data s

/-- Footer-line test `^(total|subtotal|grand|tax|gst|discount)` (i). -/
def startsFooterish (s : List Char) : Bool :=
  ciStarts "total".data s || ciStarts "subtotal".data s ||
  ciStarts "grand".data s || ciStarts "tax".data s ||
  ciStarts "gst".data s || ciStarts "discount".data s

/-- `replace(/[-–—]/g, ' ')`. -/
def mapDash (l : List Char) : List Char :=
  l.map fun c => if c == '-' || c == '–' || c == '—' then ' ' else c

/-- `replace(/\s+/g, ' ')`: each maximal whitespace run becomes one space. -/
def collapseWs : List Char → List Char
  | [] => []
  | [c] => [if jsIsSpace c then ' ' else c]
  | c :: c2 :: rest =>
    if jsIsSpace c && jsIsSpace c2 then collapseWs (c2 :: rest)
    else (if jsIsSpace c then ' ' else c) :: collapseWs (c2 :: rest)

/-- `replace(/[,;:@#$%^&*()]/g, ' ')`. -/
def mapPunct (l : List Char) : List Char :=
  l.map fun c =>
    if c == ',' || c == ';' || c == ':' || c == '@' || c == '#' || c == '$' ||
       c == '%' || c == '^' || c == '&' || c == '*' || c == '(' || c == ')'
    then ' ' else c

/-- `/^\d+$/.test` (name consists only of digits). -/
def allDigitsL (l : List Char) : Bool :=
  !l.isEmpty && l.all isDigitCh

/-- First occurrence of `pat` as an exact contiguous sublist of `s`. -/
def findSub (s pat : List Char) : Option Nat :=
  (List.range (s.length + 1)).find? fun i => pat.isPrefixOf (s.drop i)

/-- JS `str.replace(plainString, rep)`: replace the first occurrence, or
return the string unchanged when it does not occur. -/
def replaceFirst (s pat rep : List Char) : List Char :=
  match findSub s pat with
  | some i => s.take i ++ rep ++ s.drop (i + pat.length)
  | none => s

/-- Recursion core of `removeWordCI`, structurally recursive on a fuel that
bounds the remaining length (every step consumes at least one character, so
fuel equal to the initial length never runs out). -/
def removeWordGo (w : List Char) : Nat → Option Char → List Char → List Char
  | 0, _, l => l
  | _ + 1, _, [] => []
  | fuel + 1, prev, c :: rest =>
    if !w.isEmpty && !isWordO prev && ciStarts w (c :: rest) &&
        !isWordO (rest.drop (w.length - 1)).head? then
      removeWordGo w fuel ((c :: rest).take w.length).getLast? (rest.drop (w.length - 1))
    else c :: removeWordGo w fuel (some c) rest

/-- `itemName.replace(new RegExp("\\b" + w + "\\b", "gi"), "")`: delete every
non-overlapping case-insensitive whole-word occurrence of `w`, scanning left
to right with boundaries judged on the original string. -/
def removeWordCI (w : List Char) (prev : Option Char) (l : List Char) : List Char :=
  removeWordGo w l.length prev l

/-- `parseFloat` on a captured number with the commas already stripped:
`digits` or `digits.digits`, as the exact rational
(integer-and-fraction digits) / 10 ^ (fraction length). -/
def parseQ (l : List Char) : ℚ :=
  let ds := l.takeWhile isDigitCh
  match l.drop ds.length with
  | '.' :: t =>
    let fs := t.takeWhile isDigitCh
    mkRat (digitsToNat (ds ++ fs) : Int) (10 ^ fs.length)
  | _ => (digitsToNat ds : ℚ)

/-- `match[1].charAt(0).toUpperCase() + match[1].slice(1).toLowerCase()`. -/
def capitalizeL : List Char → List Char
  | [] => []
  | c :: rest => upperCh c :: lowerL rest

/-- The body of the per-line loop of `intelligentItemParser`: skip header and
footer lines, extract quantity/price (removing the matched text from the
working name), detect size and color on the original line, normalize the
name, strip the detected size and color words, and drop unusable names.
`uuid` is the `uuidv4()` draw used for this row's fallback SKU suffix. -/
def parseLine (uuid : String) (rawLine : List Char) : Option BOMRow :=
  let t := trimL rawLine
  if startsHeaderish t then none
  else if startsFooterish t then none
  else
    let cleanLine := t
    let qtyRes := firstPatternMatch qtyPatterns cleanLine
    let quantity : Int :=
      match qtyRes with
      | some (_, grp) => if digitsToNat grp = 0 then 1 else (digitsToNat grp : Int)
      | none => 1
    let name1 :=
      match qtyRes with
      | some (m0, _) => trimL (replaceFirst cleanLine m0 [' '])
      | none => cleanLine
    let priceRes := firstPatternMatch pricePatterns cleanLine
    let unitCost : ℚ :=
      match priceRes with
      | some (_, grp) => parseQ (grp.filter fun c => !(c == ','))
      | none => 0
    let name2 :=
      match priceRes with
      | some (m0, _) => trimL (replaceFirst name1 m0 [' '])
      | none => name1
    let size : List Char :=
      match firstPatternMatch sizePatterns cleanLine with
      | some (_, grp) => upperL grp
      | none => []
    let color : List Char :=
      match firstPatternMatch colorPatterns cleanLine with
      | some (_, grp) => capitalizeL grp
      | none => []
    let name3 := trimL (mapPunct (collapseWs (mapDash name2)))
    let name4 := if size.isEmpty then name3 else trimL (removeWordCI size none name3)
    let name5 := if color.isEmpty then name4 else trimL (removeWordCI color none name4)
    if name5.length < 2 then none
    else if allDigitsL name5 then none
    else
      some
        { name := List.asString name5
          quantity := quantity
          unitCost := unitCost
          sku := List.asString (upperL (name5.take 3) ++ '-' ::
            (if size.isEmpty then "STD".data else size) ++ '-' ::
            upperL (uuid.data.take 4))
          size := List.asString size
          color := List.asString color
          vendor := ""
          hsn := ""
          action := BOMAction.create
          matchedItemId := none }

/-- The per-line loop, threading the uuid supply cursor (one draw per emitted
row). -/
def parseLines (uuid : Nat → String) : Nat → List (List Char) → List BOMRow
  | _, [] => []
  | k, l :: ls =>
    match parseLine (uuid k) l with
    | some row => row :: parseLines uuid (k + 1) ls
    | none => parseLines uuid k ls

/-- `intelligentItemParser`.  The source splits on `/[\n\r]+/` (runs of line
breaks) and keeps lines with nonblank trim; splitting on each line-break
character and filtering blank lines keeps exactly the same lines. -/
def intelligentItemParser (uuid : Nat → String) (text : String) : List BOMRow :=
  let lines := (splitKeep (fun c => c == '\n' || c == '\r') text.data).filter
    fun l => !(trimL l).isEmpty
  parseLines uuid 0 lines

/-! ## parseSpreadsheet (BOMUpload.tsx lines 243-286)

A decoded spreadsheet row (`XLSX.utils.sheet_to_json` output) is modelled as
an association list of cell texts keyed by column header, and the serialized
sheet (`XLSX.utils.sheet_to_txt`) is an explicit text parameter: both come
from the external spreadsheet collaborator. -/

/-- `row[k1] || row[k2] || ...`: first present, non-empty (truthy) cell. -/
def jsLookups (r : List (String × String)) : List String → Option String
  | [] => none
  | k :: ks =>
    match r.find? fun kv => kv.1 == k with
    | some kv => if kv.2 == "" then jsLookups r ks else some kv.2
    | none => jsLookups r ks

/-- `row[k1] || ... || d`. -/
def jsLookupD (r : List (String × String)) (keys : List String) (d : String) :
    String :=
  (jsLookups r keys).getD d

/-- JS `parseInt` on a cell text: optional whitespace and sign, then a
nonempty digit prefix; `none` is `NaN`. -/
def jsParseInt (s : String) : Option Int :=
  let l := s.data.dropWhile jsIsSpace
  match l with
  | '-' :: t =>
    let ds := t.takeWhile isDigitCh
    if ds.isEmpty then none else some (-(digitsToNat ds : Int))
  | '+' :: t =>
    let ds := t.takeWhile isDigitCh
    if ds.isEmpty then none else some (digitsToNat ds : Int)
  | _ =>
    let ds := l.takeWhile isDigitCh
    if ds.isEmpty then none else some (digitsToNat ds : Int)

/-- JS `parseFloat` on a cell text: optional whitespace and sign, then
`digits`, `digits.digits` or `.digits`; `none` is `NaN`. -/
def jsParseFloat (s : String) : Option ℚ :=
  let l := s.data.dropWhile jsIsSpace
  let sign : Int := if l.head? == some '-' then -1 else 1
  let body := if l.head? == some '-' || l.head? == some '+' then l.drop 1 else l
  let ds := body.takeWhile isDigitCh
  let rest := body.drop ds.length
  match rest with
  | '.' :: t =>
    let fs := t.takeWhile isDigitCh
    if ds.isEmpty && fs.isEmpty then none
    else some (mkRat (sign * (digitsToNat (ds ++ fs) : Int)) (10 ^ fs.length))
  | _ =>
    if ds.isEmpty then none
    else some (mkRat (sign * (digitsToNat ds : Int)) 1)

/-- The column-mapping body of `jsonData.map` in `parseSpreadsheet`. -/
def mapRecordRow (r : List (String × String)) : BOMRow :=
  let name := jsLookupD r
    ["Item Name", "Name", "Product", "Description", "Item", "ProductName",
     "ITEM", "NAME"] ""
  let qty := jsParseInt (jsLookupD r
    ["Qty", "Quantity", "Units", "QTY", "QUANTITY", "Pcs", "PCS"] "1")
  let cost := jsParseFloat (jsLookupD r
    ["Cost", "Price", "Unit Price", "Rate", "COST", "PRICE", "MRP", "Amount"] "0")
  { name := List.asString (trimL name.data)
    quantity := qty.getD 1
    unitCost := cost.getD 0
    sku := jsLookupD r ["SKU", "Item Code", "Code", "SKU Code"] ""
    size := jsLookupD r ["Size", "SIZE"] ""
    color := jsLookupD r ["Color", "Colour", "COLOR"] ""
    vendor := jsLookupD r ["Vendor", "Supplier", "VENDOR"] ""
    hsn := jsLookupD r ["HSN", "HSN Code", "HSN_CODE"] ""
    action := BOMAction.create
    matchedItemId := none }

/-- `parseSpreadsheet` up to the inventory-matching step: column mapping with
the name filter, falling back to the heuristic parser on the serialized
sheet text when the mapping yields zero rows. -/
def parseSpreadsheet (uuid : Nat → String)
    (jsonData : List (List (String × String))) (rawText : String) :
    List BOMRow :=
  let rows := (jsonData.map mapRecordRow).filter fun row =>
    !(row.name == "") && row.name.length > 1
  if rows.isEmpty then intelligentItemParser uuid rawText else rows

/-- A fixed uuid supply used for concrete evaluations of the parser. -/
def uuidFixed : Nat → String := fun _ => "0000aaaa"

/-! # Theorems -/

/-- The `mkRat` in `simScore` is exactly the quotient of the match count by
the larger word count, as computed by the source. -/
theorem simScore_eq_div (sw lw : List (List Char)) :
    simScore sw lw =
      ((sw.filter fun word => lw.any fun w =>
          jsIncludes w word || jsIncludes word w).length : ℚ) /
        ((max sw.length lw.length : Nat) : ℚ) := by
  rw [simScore, Rat.mkRat_eq_div]
  push_cast
  rfl

/-- `splitKeep` only looks at the predicate on the characters of the list. -/
theorem splitKeep_congr (p q : Char → Bool) (l : List Char)
    (h : ∀ c ∈ l, p c = q c) : splitKeep p l = splitKeep q l := by
  induction l with
  | nil => rfl
  | cons c cs ih =>
    have hc : p c = q c := h c (List.mem_cons_self c cs)
    have ihcs : splitKeep p cs = splitKeep q cs :=
      ih fun d hd => h d (List.mem_cons_of_mem c hd)
    simp only [splitKeep, ihcs, hc]

/-- When a string contains no whitespace other than plain spaces and
splitting on spaces produces no empty word, the spec's whitespace
tokenization and the source's single-space tokenization coincide. -/
theorem wsWords_eq_spaceWords (s : String)
    (h1 : ∀ c ∈ s.data, jsIsSpace c = true → c = ' ')
    (h2 : [] ∉ spaceWords s) :
    wsWords s = spaceWords s := by
  have hcong : splitKeep jsIsSpace s.data =
      splitKeep (fun c => c == ' ') s.data := by
    refine splitKeep_congr _ _ _ fun c hc => ?_
    by_cases hsp : c = ' '
    · subst hsp; rfl
    · have hr : (c == ' ') = false := by simp [hsp]
      rw [hr]
      cases hjs : jsIsSpace c
      · rfl
      · exact absurd (h1 c hc hjs) hsp
  rw [wsWords, hcong]
  exact List.filter_eq_self.mpr fun w hw => by
    cases w with
    | nil => exact absurd hw h2
    | cons a as => rfl

/-- C3 counterexample: the word-overlap similarity is not symmetric.  On the
equal-length pair "aa bb" / "aabbc" the longer/shorter selection flips with
the argument order, giving scores 1 and 1/2. -/
theorem calculateSimilarity_not_symm :
    calculateSimilarity "aa bb" "aabbc" ≠ calculateSimilarity "aabbc" "aa bb" := by
  decide

/-- C3 (amended): the similarity is symmetric whenever the two strings have
different lengths, because the longer/shorter selection is then independent
of the argument order. -/
theorem calculateSimilarity_symm_of_length_ne (str1 str2 : String)
    (h : str1.length ≠ str2.length) :
    calculateSimilarity str1 str2 = calculateSimilarity str2 str1 := by
  rcases Nat.lt_or_gt_of_ne h with hlt | hgt
  · have h1 : ¬ str1.length > str2.length := Nat.lt_asymm hlt
    simp only [calculateSimilarity, if_pos hlt, if_neg h1]
  · have h2 : ¬ str2.length > str1.length := Nat.lt_asymm hgt
    simp only [calculateSimilarity, if_pos hgt, if_neg h2]

/-- Witness for the amended C3 at the concrete pair "ab" / "b". -/
theorem calculateSimilarity_symm_of_length_ne_witness :
    "ab".length ≠ "b".length ∧
    calculateSimilarity "ab" "b" = calculateSimilarity "b" "ab" :=
  ⟨by decide, calculateSimilarity_symm_of_length_ne "ab" "b" (by decide)⟩

/-- C4 counterexample: the source splits on single spaces and keeps empty
words (which are substrings of everything), while the spec splits on
whitespace; on "a  b" versus "xy" the source scores 1/3 and the spec 0. -/
theorem calculateSimilarity_ne_spec :
    calculateSimilarity "a  b" "xy" ≠ specSimilarity "a  b" "xy" := by
  decide

/-- C4 (amended): the source similarity agrees with the spec's reference
definition whenever both names are space-normalized, i.e. contain no
whitespace besides plain spaces and produce no empty word when split on
spaces (no leading, trailing or doubled spaces). -/
theorem calculateSimilarity_eq_spec_of_normalized (str1 str2 : String)
    (ha1 : ∀ c ∈ str1.data, jsIsSpace c = true → c = ' ')
    (ha2 : [] ∉ spaceWords str1)
    (hb1 : ∀ c ∈ str2.data, jsIsSpace c = true → c = ' ')
    (hb2 : [] ∉ spaceWords str2) :
    calculateSimilarity str1 str2 = specSimilarity str1 str2 := by
  have e1 := wsWords_eq_spaceWords str1 ha1 ha2
  have e2 := wsWords_eq_spaceWords str2 hb1 hb2
  by_cases hgt : str1.length > str2.length
  · have h0 : ¬ str1.length = 0 := by omega
    simp only [calculateSimilarity, specSimilarity, if_pos hgt, if_neg h0, e1, e2]
  · by_cases h0 : str2.length = 0
    · exfalso
      apply hb2
      have hnil : str2.data = [] := List.eq_nil_of_length_eq_zero h0
      simp [spaceWords, hnil, splitKeep]
    · simp only [calculateSimilarity, specSimilarity, if_neg hgt, if_neg h0, e1, e2]

/-- Witness for the amended C4 at the concrete pair
"blue jeans" / "blue denim jeans". -/
theorem calculateSimilarity_eq_spec_witness :
    ((∀ c ∈ "blue jeans".data, jsIsSpace c = true → c = ' ') ∧
      [] ∉ spaceWords "blue jeans" ∧
      (∀ c ∈ "blue denim jeans".data, jsIsSpace c = true → c = ' ') ∧
      [] ∉ spaceWords "blue denim jeans") ∧
    calculateSimilarity "blue jeans" "blue denim jeans" =
      specSimilarity "blue jeans" "blue denim jeans" :=
  ⟨⟨by decide, by decide, by decide, by decide⟩,
    calculateSimilarity_eq_spec_of_normalized "blue jeans" "blue denim jeans"
      (by decide) (by decide) (by decide) (by decide)⟩

/-- C1 counterexample: on the spec's own example line
"10 pcs Blue Jeans @ 500" no produced row carries the claimed name
"Blue Jeans" (together with quantity 10 and unit cost 500): the parser also
detects the color "Blue" (and the size "10" from the leading digits) and
strips the color word from the name. -/
theorem intelligentItemParser_example_not_as_claimed :
    ¬ ∃ r ∈ intelligentItemParser uuidFixed "10 pcs Blue Jeans @ 500",
        r.name = "Blue Jeans" ∧ r.quantity = 10 ∧ r.unitCost = 500 := by
  decide

/-- C1 (amended): on "10 pcs Blue Jeans @ 500" the parser recovers
quantity 10 and unit cost 500 and removes the matched quantity and price
substrings from the name, but it additionally detects size "10" (the leading
digits, via the bare two-digit-number size pattern) and color "Blue", and
deletes the detected color word from the name, leaving "Jeans". -/
theorem intelligentItemParser_example :
    intelligentItemParser uuidFixed "10 pcs Blue Jeans @ 500" =
      [{ name := "Jeans", quantity := 10, unitCost := 500, sku := "JEA-10-0000",
         size := "10", color := "Blue", vendor := "", hsn := "",
         action := BOMAction.create, matchedItemId := none }] := by
  decide

/-- C2 counterexample: when the column mapping yields zero rows and the
serialized sheet text is the single line
"1. Blue Jeans Size 32 - Qty 10 - Rs.850", no row of the fallback output
carries the claimed name "Blue Jeans". -/
theorem parseSpreadsheet_fallback_not_as_claimed :
    ¬ ∃ r ∈ parseSpreadsheet uuidFixed []
          "1. Blue Jeans Size 32 - Qty 10 - Rs.850",
        r.name = "Blue Jeans" ∧ r.quantity = 10 ∧ r.unitCost = 850 ∧
        r.size = "32" := by
  decide

/-- C2 (amended): with zero column-mapped rows the sheet text is fed to the
heuristic parser, and the line "1. Blue Jeans Size 32 - Qty 10 - Rs.850"
yields exactly one row with quantity 10, unit cost 850 and size "32" — but
its name is "1.  Jeans Size" (the leading "1." survives because the dot is
not among the stripped punctuation, the word "Size" survives, and the
detected color "Blue" is deleted), and its color is "Blue". -/
theorem parseSpreadsheet_fallback_example :
    parseSpreadsheet uuidFixed [] "1. Blue Jeans Size 32 - Qty 10 - Rs.850" =
      [{ name := "1.  Jeans Size", quantity := 10, unitCost := 850,
         sku := "1. -32-0000", size := "32", color := "Blue", vendor := "",
         hsn := "", action := BOMAction.create, matchedItemId := none }] := by
  decide

/-- C5: a parsed row whose name equals an existing item's name up to letter
case always matches (the exact-equality rule satisfies the search predicate,
so the `find` succeeds), the row's action becomes `update` and its
`matchedItemId` is the id of some existing item; a row satisfying no match
rule at all is returned unchanged (so its action stays `create`).  The
matcher maps this per-row step over the row list. -/
theorem matchOne_caseInsensitive (existingItems : List InventoryItem)
    (item : BOMRow) :
    ((∃ e ∈ existingItems, jsToLower e.name = jsToLower item.name) →
      (matchOne existingItems item).action = BOMAction.update ∧
      ∃ e ∈ existingItems,
        (matchOne existingItems item).matchedItemId = some e.id) ∧
    ((∀ e ∈ existingItems, matchPred item e = false) →
      matchOne existingItems item = item) ∧
    matchWithExistingInventory existingItems [item] =
      [matchOne existingItems item] := by
  refine ⟨?_, ?_, rfl⟩
  · rintro ⟨e, he, hname⟩
    have hbeq : (jsToLower item.name == jsToLower e.name) = true := by
      rw [hname, beq_self_eq_true]
    have hpred : matchPred item e = true := by
      simp [matchPred, hbeq]
    rcases hf : existingItems.find? (matchPred item) with _ | m
    · rw [List.find?_eq_none] at hf
      exact absurd hpred (by simpa using hf e he)
    · have hm : m ∈ existingItems := List.mem_of_find?_eq_some hf
      exact ⟨by simp [matchOne, hf], m, hm, by simp [matchOne, hf]⟩
  · intro hall
    have hf : existingItems.find? (matchPred item) = none :=
      List.find?_eq_none.mpr fun e he => by simp [hall e he]
    simp [matchOne, hf]

/-- Concrete inventory used by the matcher witness. -/
def exInv : List InventoryItem :=
  [{ id := "item-1", name := "Blue Jeans", sku := "BJ-01", category := "General",
     hsn := "", variants := [], vendor := "", purchasePrice := 0,
     sellingPrice := 0, taxRate := 12, lowStockThreshold := 5, createdAt := 0,
     updatedAt := 0 }]

/-- A parsed row differing from the catalog name only in letter case. -/
def rowLower : BOMRow :=
  { name := "blue jeans", quantity := 1, unitCost := 0, sku := "", size := "",
    color := "", vendor := "", hsn := "", action := BOMAction.create,
    matchedItemId := none }

/-- A parsed row matching no rule against `exInv`. -/
def rowUnrelated : BOMRow :=
  { name := "qqqq zzzz", quantity := 1, unitCost := 0, sku := "", size := "",
    color := "", vendor := "", hsn := "", action := BOMAction.create,
    matchedItemId := none }

/-- Witness for C5 at a concrete catalog and rows. -/
theorem matchOne_caseInsensitive_witness :
    ((matchOne exInv rowLower).action = BOMAction.update ∧
      ∃ e ∈ exInv, (matchOne exInv rowLower).matchedItemId = some e.id) ∧
    matchOne exInv rowUnrelated = rowUnrelated :=
  ⟨(matchOne_caseInsensitive exInv rowLower).1 (by decide),
   (matchOne_caseInsensitive exInv rowUnrelated).2.1 (by decide)⟩

/-- A successful `findIndex` exposes the found element, which satisfies the
predicate. -/
theorem jsFindIndex_get {α : Type} (p : α → Bool) (l : List α) (k : Nat)
    (h : jsFindIndex p l = some k) :
    ∃ v, l.get? k = some v ∧ p v = true := by
  induction l generalizing k with
  | nil => simp [jsFindIndex] at h
  | cons a as ih =>
    cases hp : p a with
    | true =>
      simp only [jsFindIndex, hp, if_true] at h
      simp only [Option.some.injEq] at h
      subst h
      exact ⟨a, rfl, hp⟩
    | false =>
      simp only [jsFindIndex, hp, Bool.false_eq_true, if_false] at h
      rcases hfa : jsFindIndex p as with _ | k2
      · rw [hfa] at h; simp at h
      · rw [hfa] at h
        simp only [Option.map_some', Option.some.injEq] at h
        subst h
        obtain ⟨v, hget, hpv⟩ := ih k2 hfa
        exact ⟨v, by simpa using hget, hpv⟩

/-- Bumping the stock at index `k` updates exactly the looked-up variant. -/
theorem bumpStock_get? (q : Int) (l : List ItemVariant) (k : Nat)
    (v : ItemVariant) (h : l.get? k = some v) :
    (bumpStock q l k).get? k = some { v with stock := v.stock + q } := by
  induction l generalizing k with
  | nil => simp at h
  | cons a as ih =>
    cases k with
    | zero =>
      simp only [List.get?_cons_zero, Option.some.injEq] at h
      subst h
      rfl
    | succ k =>
      rw [List.get?_cons_succ] at h
      simpa [bumpStock] using ih k h

/-- Bumping the stock at the index found for a (size, color) pair does not
change sizes or colors, so the same index is found again. -/
theorem jsFindIndex_bumpStock (sz co : String) (q : Int)
    (l : List ItemVariant) (k : Nat)
    (h : jsFindIndex (fun w => w.size == sz && w.color == co) l = some k) :
    jsFindIndex (fun w => w.size == sz && w.color == co) (bumpStock q l k) =
      some k := by
  induction l generalizing k with
  | nil => simp [jsFindIndex] at h
  | cons a as ih =>
    cases hp : (a.size == sz && a.color == co) with
    | true =>
      simp only [jsFindIndex, hp, if_true, Option.some.injEq] at h
      subst h
      simp [bumpStock, jsFindIndex, hp]
    | false =>
      simp only [jsFindIndex, hp, Bool.false_eq_true, if_false] at h
      rcases hfa : jsFindIndex (fun w => w.size == sz && w.color == co) as
        with _ | k2
      · rw [hfa] at h; simp at h
      · rw [hfa] at h
        simp only [Option.map_some', Option.some.injEq] at h
        subst h
        simp [bumpStock, jsFindIndex, hp, ih k2 hfa]

/-- After replacing the stored item by id, a lookup of that id returns the
replacement. -/
theorem dbGet_dbUpdate (catalog : List InventoryItem) (i : String)
    (it upd : InventoryItem) (h : dbGet catalog i = some it)
    (hid : upd.id = it.id) : dbGet (dbUpdate catalog upd) i = some upd := by
  have hfind : catalog.find? (fun x => x.id == i) = some it := h
  have hiti : (it.id == i) = true := by
    have h2 := List.find?_some hfind
    exact h2
  have hupdi : upd.id = i := hid.trans (beq_iff_eq.mp hiti)
  have hupdbeq : (upd.id == i) = true := beq_iff_eq.mpr hupdi
  clear h
  induction catalog with
  | nil => simp at hfind
  | cons a as ih =>
    show List.find? (fun x => x.id == i)
      (List.map (fun x => if x.id == upd.id then upd else x) (a :: as)) =
      some upd
    rw [List.map_cons]
    by_cases ha : a.id = i
    · have hmap : (a.id == upd.id) = true :=
        beq_iff_eq.mpr (by rw [ha, hupdi])
      rw [if_pos hmap]
      exact @List.find?_cons_of_pos _ (fun x : InventoryItem => x.id == i)
        upd _ hupdbeq
    · have hne2 : ¬ ((a.id == i) = true) := by simp [ha]
      have hmap : ¬ ((a.id == upd.id) = true) := by
        simp only [beq_iff_eq, hupdi]
        exact ha
      rw [if_neg hmap,
        @List.find?_cons_of_neg _ (fun x : InventoryItem => x.id == i) a _ hne2]
      rw [@List.find?_cons_of_neg _ (fun x : InventoryItem => x.id == i) a _ hne2]
        at hfind
      exact ih hfind

/-- The update branch of the commit loop when the id resolves and the
(size, color) pair is found among the variants. -/
theorem commitRow_update_found (u : Nat → String) (now : Nat)
    (st : CommitState) (row : BOMRow) (i : String) (it : InventoryItem)
    (k : Nat) (hact : row.action = BOMAction.update)
    (hmid : row.matchedItemId = some i) (hne : i ≠ "")
    (hget : dbGet st.catalog i = some it)
    (hk : jsFindIndex (fun w => w.size == row.size && w.color == row.color)
        it.variants = some k) :
    commitRow u now st row =
      { st with
        catalog := dbUpdate st.catalog
          { it with variants := bumpStock row.quantity it.variants k,
                    updatedAt := now },
        updated := st.updated + 1 } := by
  have hguard : (row.action == BOMAction.update && !(i == "")) = true := by
    simp [hact, hne]
  simp [commitRow, hmid, hguard, hget, hk]

/-- C7: committing the same resolving update row twice is additive — the
matched (size, color) variant's stock grows by twice the row quantity. -/
theorem commit_update_twice (u : Nat → String) (now : Nat) (st : CommitState)
    (row : BOMRow) (i : String) (it : InventoryItem) (k : Nat)
    (v : ItemVariant) (hact : row.action = BOMAction.update)
    (hmid : row.matchedItemId = some i) (hne : i ≠ "")
    (hget : dbGet st.catalog i = some it)
    (hk : jsFindIndex (fun w => w.size == row.size && w.color == row.color)
        it.variants = some k)
    (hv : it.variants.get? k = some v) :
    ∃ it2,
      dbGet (commitRow u now (commitRow u now st row) row).catalog i =
        some it2 ∧
      it2.variants.get? k =
        some { v with stock := v.stock + 2 * row.quantity } := by
  have h1 := commitRow_update_found u now st row i it k hact hmid hne hget hk
  have hget1 : dbGet (dbUpdate st.catalog
      { it with variants := bumpStock row.quantity it.variants k,
                updatedAt := now }) i =
      some { it with variants := bumpStock row.quantity it.variants k,
                     updatedAt := now } :=
    dbGet_dbUpdate st.catalog i it _ hget rfl
  have hk1 : jsFindIndex (fun w => w.size == row.size && w.color == row.color)
      (bumpStock row.quantity it.variants k) = some k :=
    jsFindIndex_bumpStock row.size row.color row.quantity it.variants k hk
  have h2 := commitRow_update_found u now
    { st with
      catalog := dbUpdate st.catalog
        { it with variants := bumpStock row.quantity it.variants k,
                  updatedAt := now },
      updated := st.updated + 1 }
    row i
    { it with variants := bumpStock row.quantity it.variants k,
              updatedAt := now }
    k hact hmid hne hget1 hk1
  refine ⟨{ it with
      variants := bumpStock row.quantity (bumpStock row.quantity it.variants k) k,
      updatedAt := now }, ?_, ?_⟩
  · rw [h1, h2]
    exact dbGet_dbUpdate _ i
      { it with variants := bumpStock row.quantity it.variants k,
                updatedAt := now } _ hget1 rfl
  · have hv1 := bumpStock_get? row.quantity it.variants k v hv
    have hv2 := bumpStock_get? row.quantity
      (bumpStock row.quantity it.variants k) k _ hv1
    have harith : v.stock + row.quantity + row.quantity =
        v.stock + 2 * row.quantity := by ring
    simpa [harith] using hv2

/-- Concrete variant data for the commit witnesses. -/
def varJeansM : ItemVariant :=
  { id := "v1", size := "M", color := "Blue", stock := 3 }

/-- Concrete catalog item for the commit witnesses. -/
def invJeans : InventoryItem :=
  { id := "A", name := "Blue Jeans", sku := "BJ-01", category := "General",
    hsn := "", variants := [varJeansM], vendor := "", purchasePrice := 0,
    sellingPrice := 0, taxRate := 12, lowStockThreshold := 5, createdAt := 0,
    updatedAt := 0 }

/-- A reviewed row updating `invJeans`. -/
def rowUpdate : BOMRow :=
  { name := "Blue Jeans", quantity := 4, unitCost := 0, sku := "",
    size := "M", color := "Blue", vendor := "", hsn := "",
    action := BOMAction.update, matchedItemId := some "A" }

/-- Commit state holding just `invJeans`. -/
def stJeans : CommitState :=
  { catalog := [invJeans], created := 0, updated := 0, ctr := 0 }

/-- Witness for C7: committing `rowUpdate` twice raises the variant's stock
from 3 to 3 + 2·4. -/
theorem commit_update_twice_witness :
    ∃ it2,
      dbGet (commitRow uuidFixed 0 (commitRow uuidFixed 0 stJeans rowUpdate)
          rowUpdate).catalog "A" = some it2 ∧
      it2.variants.get? 0 =
        some { id := "v1", size := "M", color := "Blue",
               stock := (3 : Int) + 2 * 4 } :=
  commit_update_twice uuidFixed 0 stJeans rowUpdate "A" invJeans 0 varJeansM
    rfl rfl (by decide) (by decide) (by decide) (by decide)

/-- C6: committing a row with action `create` appends to the catalog one new
item with a single variant holding the row's quantity, category "General",
tax rate 12, low-stock threshold 5, purchase price the row's unit cost, and
selling price round(unitCost · 1.4) when the unit cost is positive and 0
otherwise; the created counter grows by one. -/
theorem commit_create_row (u : Nat → String) (now : Nat) (st : CommitState)
    (row : BOMRow) (hact : row.action = BOMAction.create) :
    ∃ item,
      (commitRow u now st row).catalog = st.catalog ++ [item] ∧
      (commitRow u now st row).created = st.created + 1 ∧
      (commitRow u now st row).updated = st.updated ∧
      item.name = row.name ∧
      item.variants = [⟨u st.ctr, row.size, row.color, row.quantity⟩] ∧
      item.category = "General" ∧
      item.taxRate = 12 ∧
      item.lowStockThreshold = 5 ∧
      item.purchasePrice = row.unitCost ∧
      item.sellingPrice =
        (if row.unitCost > 0 then ((jsRound (row.unitCost * (7 / 5)) : ℤ) : ℚ)
         else 0) := by
  have hcc : commitRow u now st row = commitCreate u now st row := by
    cases hm : row.matchedItemId with
    | none => simp [commitRow, hm]
    | some mid =>
      have hguard : (row.action == BOMAction.update && !(mid == "")) = false := by
        simp [hact]
      simp [commitRow, hm, hguard]
  rw [hcc]
  exact ⟨_, rfl, rfl, rfl, rfl, rfl, rfl, rfl, rfl, rfl, rfl⟩

/-- Empty commit state for the witnesses. -/
def stEmpty : CommitState := { catalog := [], created := 0, updated := 0, ctr := 0 }

/-- A reviewed row with action `create`. -/
def rowCreate : BOMRow :=
  { name := "Red Kurti", quantity := 12, unitCost := 450, sku := "",
    size := "S", color := "Red", vendor := "", hsn := "",
    action := BOMAction.create, matchedItemId := none }

/-- Witness for C6 at a concrete row and empty catalog. -/
theorem commit_create_row_witness :
    ∃ item,
      (commitRow uuidFixed 0 stEmpty rowCreate).catalog =
        stEmpty.catalog ++ [item] ∧
      (commitRow uuidFixed 0 stEmpty rowCreate).created =
        stEmpty.created + 1 ∧
      (commitRow uuidFixed 0 stEmpty rowCreate).updated = stEmpty.updated ∧
      item.name = rowCreate.name ∧
      item.variants =
        [⟨uuidFixed stEmpty.ctr, rowCreate.size, rowCreate.color,
          rowCreate.quantity⟩] ∧
      item.category = "General" ∧
      item.taxRate = 12 ∧
      item.lowStockThreshold = 5 ∧
      item.purchasePrice = rowCreate.unitCost ∧
      item.sellingPrice =
        (if rowCreate.unitCost > 0 then
          ((jsRound (rowCreate.unitCost * (7 / 5)) : ℤ) : ℚ) else 0) :=
  commit_create_row uuidFixed 0 stEmpty rowCreate rfl

/-- C8: an update row whose (nonempty) matched id resolves to no catalog item
is silently skipped — the state (catalog and both counters) is unchanged and
the loop just moves on to the remaining rows.  (An empty-string id is falsy
in JS and would instead be routed to the create branch by the loop guard.) -/
theorem commit_skips_unresolved (u : Nat → String) (now : Nat)
    (st : CommitState) (row : BOMRow) (i : String)
    (hact : row.action = BOMAction.update) (hmid : row.matchedItemId = some i)
    (hne : i ≠ "") (hget : dbGet st.catalog i = none) :
    commitRow u now st row = st ∧
    ∀ rest : List BOMRow,
      handleConfirm u now (row :: rest) st.catalog =
        handleConfirm u now rest st.catalog := by
  have hguard : (row.action == BOMAction.update && !(i == "")) = true := by
    simp [hact, hne]
  constructor
  · simp [commitRow, hmid, hguard, hget]
  · intro rest
    have hskip : commitRow u now
        { catalog := st.catalog, created := 0, updated := 0, ctr := 0 } row =
        { catalog := st.catalog, created := 0, updated := 0, ctr := 0 } := by
      simp [commitRow, hmid, hguard, hget]
    simp [handleConfirm, List.filter_cons, hact, hskip]

/-- A reviewed update row pointing at an id absent from the catalog. -/
def rowStale : BOMRow :=
  { name := "Ghost Item", quantity := 2, unitCost := 100, sku := "",
    size := "", color := "", vendor := "", hsn := "",
    action := BOMAction.update, matchedItemId := some "missing" }

/-- Witness for C8 with an empty catalog. -/
theorem commit_skips_unresolved_witness :
    commitRow uuidFixed 0 stEmpty rowStale = stEmpty ∧
    handleConfirm uuidFixed 0 [rowStale] stEmpty.catalog =
      handleConfirm uuidFixed 0 [] stEmpty.catalog :=
  ⟨(commit_skips_unresolved uuidFixed 0 stEmpty rowStale "missing"
      rfl rfl (by decide) (by decide)).1,
   (commit_skips_unresolved uuidFixed 0 stEmpty rowStale "missing"
      rfl rfl (by decide) (by decide)).2 []⟩

/-- C10: a non-ignored row with action `update` but no `matchedItemId` fails
the loop guard and is processed by the create branch — a brand-new catalog
item is appended and counted as created; and the review-step action buttons
(`updateRowAction`) never touch `matchedItemId`, so this state is reachable
by marking an unmatched row as `update`. -/
theorem commit_update_without_id_creates (u : Nat → String) (now : Nat)
    (st : CommitState) (row : BOMRow)
    (hact : row.action = BOMAction.update) (hmid : row.matchedItemId = none) :
    (∃ item,
      (commitRow u now st row).catalog = st.catalog ++ [item] ∧
      (commitRow u now st row).created = st.created + 1 ∧
      (commitRow u now st row).updated = st.updated ∧
      item.name = row.name) ∧
    ∀ (rows : List BOMRow) (index : Nat),
      (updateRowAction rows index BOMAction.update).map BOMRow.matchedItemId =
        rows.map BOMRow.matchedItemId := by
  constructor
  · have hcc : commitRow u now st row = commitCreate u now st row := by
      simp [commitRow, hmid]
    rw [hcc]
    exact ⟨_, rfl, rfl, rfl, rfl⟩
  · intro rows index
    induction rows generalizing index with
    | nil => simp [updateRowAction]
    | cons r rs ih =>
      cases index with
      | zero => simp [updateRowAction]
      | succ n => simp [updateRowAction, ih n]

/-- A reviewed row manually flipped to `update` while unmatched. -/
def rowOrphan : BOMRow :=
  { name := "Lone Item", quantity := 1, unitCost := 50, sku := "",
    size := "", color := "", vendor := "", hsn := "",
    action := BOMAction.update, matchedItemId := none }

/-- Witness for C10 at a concrete row and empty catalog. -/
theorem commit_update_without_id_creates_witness :
    (∃ item,
      (commitRow uuidFixed 0 stEmpty rowOrphan).catalog =
        stEmpty.catalog ++ [item] ∧
      (commitRow uuidFixed 0 stEmpty rowOrphan).created =
        stEmpty.created + 1 ∧
      (commitRow uuidFixed 0 stEmpty rowOrphan).updated = stEmpty.updated ∧
      item.name = rowOrphan.name) ∧
    ∀ (rows : List BOMRow) (index : Nat),
      (updateRowAction rows index BOMAction.update).map BOMRow.matchedItemId =
        rows.map BOMRow.matchedItemId :=
  ⟨(commit_update_without_id_creates uuidFixed 0 stEmpty rowOrphan rfl rfl).1,
   (commit_update_without_id_creates uuidFixed 0 stEmpty rowOrphan rfl rfl).2⟩

/-- Every key of `recordSet k v r` is a key of `r` or is `k`. -/
theorem recordSet_keys (P : String → Prop) (k : String) (v : Int)
    (r : List (String × Int)) (hr : ∀ kv ∈ r, P kv.1) (hk : P k) :
    ∀ kv ∈ recordSet k v r, P kv.1 := by
  induction r with
  | nil =>
    intro kv hkv
    simp only [recordSet, List.mem_singleton] at hkv
    rw [hkv]
    exact hk
  | cons a as ih =>
    intro kv hkv
    cases ha : (a.1 == k) with
    | true =>
      simp [recordSet, ha] at hkv
      rcases hkv with h1 | h2
      · rw [h1]; exact hr a (List.mem_cons_self a as)
      · exact hr kv (List.mem_cons_of_mem a h2)
    | false =>
      simp [recordSet, ha] at hkv
      rcases hkv with h1 | h2
      · rw [h1]; exact hr a (List.mem_cons_self a as)
      · exact ih (fun x hx => hr x (List.mem_cons_of_mem a hx)) kv h2

/-- Keys of the inner per-invoice accumulation all come from the item names
or the initial record. -/
theorem foldl_addSale_keys (P : String → Prop) (items : List SaleLine)
    (hitems : ∀ it ∈ items, P it.itemName) (r : List (String × Int))
    (hr : ∀ kv ∈ r, P kv.1) :
    ∀ kv ∈ items.foldl
      (fun acc item => addSale acc item.itemName item.quantity) r, P kv.1 := by
  induction items generalizing r with
  | nil => simpa using hr
  | cons it its ih =>
    rw [List.foldl_cons]
    exact ih (fun x hx => hitems x (List.mem_cons_of_mem it hx)) _
      (recordSet_keys P it.itemName _ r hr (hitems it (List.mem_cons_self it its)))

/-- Keys of the sales accumulation all come from the invoices' item names. -/
theorem itemSales_foldl_keys (P : String → Prop) :
    ∀ (invs : List Invoice) (r : List (String × Int)),
      (∀ inv ∈ invs, ∀ it ∈ inv.items, P it.itemName) →
      (∀ kv ∈ r, P kv.1) →
      ∀ kv ∈ invs.foldl
        (fun acc inv => inv.items.foldl
          (fun acc item => addSale acc item.itemName item.quantity) acc) r,
        P kv.1
  | [], r, _, hr => by simpa using hr
  | inv :: invs, r, h, hr => by
    rw [List.foldl_cons]
    exact itemSales_foldl_keys P invs _
      (fun i hi => h i (List.mem_cons_of_mem inv hi))
      (foldl_addSale_keys P inv.items (h inv (List.mem_cons_self inv invs)) r hr)

/-- When no key of the record is array-index-like, `Object.entries`
enumeration is plain insertion order. -/
theorem jsEntries_of_no_index (r : List (String × Int))
    (h : ∀ kv ∈ r, jsArrayIndex kv.1 = none) : jsEntries r = r := by
  have h1 : (r.filter fun kv => (jsArrayIndex kv.1).isSome) = [] := by
    rw [List.filter_eq_nil_iff]
    intro kv hkv
    simp [h kv hkv]
  have h2 : (r.filter fun kv => (jsArrayIndex kv.1).isNone) = r := by
    rw [List.filter_eq_self]
    intro kv hkv
    simp [h kv hkv]
  rw [jsEntries, h1, h2]
  rfl

/-- C9 counterexample: with an item named "99" (an array-index-like string),
JS object enumeration moves it in front of the earlier-encountered "B", so a
5–5 tie is not broken by encounter order. -/
theorem topSellingToday_counterexample :
    topSellingToday 0 [⟨0, [⟨"B", 5⟩, ⟨"99", 5⟩]⟩] ≠
      topSellingSpec 0 [⟨0, [⟨"B", 5⟩, ⟨"99", 5⟩]⟩] := by
  decide

/-- C9 (amended): the top-selling computation sums quantities by item name
over the invoices created at or after midnight, sorts descending by total
(stably) and keeps the first five, with ties in original encounter order —
provided no item name is an array-index-like string (all digits, no leading
zero, below 2^32 − 1); such names are enumerated first in ascending numeric
order by JS objects. -/
theorem topSellingToday_eq_spec (midnight : Int) (invoices : List Invoice)
    (h : ∀ inv ∈ invoices, ∀ it ∈ inv.items, jsArrayIndex it.itemName = none) :
    topSellingToday midnight invoices = topSellingSpec midnight invoices := by
  have hkeys : ∀ kv ∈ itemSalesOf
      (invoices.filter fun inv => decide (midnight ≤ inv.createdAt)),
      jsArrayIndex kv.1 = none := by
    have base := itemSales_foldl_keys (fun s => jsArrayIndex s = none)
      (invoices.filter fun inv => decide (midnight ≤ inv.createdAt)) []
      (fun inv hinv it hit => h inv (List.mem_of_mem_filter hinv) it hit)
      (by simp)
    exact base
  simp only [topSellingToday, topSellingSpec]
  rw [jsEntries_of_no_index _ hkeys]

/-- Witness for the amended C9 at a concrete invoice list. -/
theorem topSellingToday_eq_spec_witness :
    (∀ inv ∈ [Invoice.mk 0 [⟨"Shirt", 3⟩, ⟨"Jeans", 5⟩]],
      ∀ it ∈ inv.items, jsArrayIndex it.itemName = none) ∧
    topSellingToday 0 [Invoice.mk 0 [⟨"Shirt", 3⟩, ⟨"Jeans", 5⟩]] =
      topSellingSpec 0 [Invoice.mk 0 [⟨"Shirt", 3⟩, ⟨"Jeans", 5⟩]] :=
  ⟨by decide,
   topSellingToday_eq_spec 0 [Invoice.mk 0 [⟨"Shirt", 3⟩, ⟨"Jeans", 5⟩]]
     (by decide)⟩

end Revonn
